import Mathlib

/-!
Verification of the `stats` accumulator library (frequency tables, min/max
tracking, online moments, and order statistics) against its specification.

Each Rust structure is shallowly embedded as a Lean structure; hash maps
become association lists, vectors become lists, `u64`/`usize` become `Nat`
(with explicit wrap-around modulo 2^64 where the code can underflow), and
`f64` values become exact rationals extended with a NaN element (rounding is
not modelled; every concrete input used below is exact in `f64` as well).
A Rust panic (failed assertion or out-of-bounds index) is modelled as
`Option.none`.
-/

/-! ## Hash map model (association list with insert-or-replace semantics) -/

/-- `HashMap::insert`-style update of an association list: replaces the value
stored at `k` if present, otherwise appends the binding. -/
def hmInsert {α : Type} [DecidableEq α] (m : List (α × Nat)) (k : α) (v : Nat) :
    List (α × Nat) :=
  match m with
  | [] => [(k, v)]
  | (k', v') :: rest =>
      if k = k' then (k, v) :: rest else (k', v') :: hmInsert rest k v

/-- `HashMap::find`: the value stored at `k`, if any. -/
def hmFind {α : Type} [DecidableEq α] (m : List (α × Nat)) (k : α) : Option Nat :=
  match m with
  | [] => none
  | (k', v') :: rest => if k = k' then some v' else hmFind rest k

/-! ## `Frequencies<T>` (src/frequency.rs) -/

/-- Embeds `Frequencies<T>`: a map from sample values to `u64` occurrence
counts, modelled as an association list. -/
structure Frequencies (α : Type) where
  data : List (α × Nat)
deriving DecidableEq

/-- `Frequencies::new` (via `Default`): the empty table. -/
def Frequencies.new {α : Type} : Frequencies α := ⟨[]⟩

/-- `Frequencies::add`: the entry API sets a vacant entry to 1 and increments
an occupied one. -/
def Frequencies.add {α : Type} [DecidableEq α] (f : Frequencies α) (v : α) :
    Frequencies α :=
  match hmFind f.data v with
  | none => ⟨hmInsert f.data v 1⟩
  | some c => ⟨hmInsert f.data v (c + 1)⟩

/-- `Frequencies::count`: stored count of `v`, or 0 when absent. -/
def Frequencies.count {α : Type} [DecidableEq α] (f : Frequencies α) (v : α) :
    Nat :=
  (hmFind f.data v).getD 0

/-- `Frequencies::merge`: `self.data.extend(v.data.into_iter())` — each
key/value pair of the right operand is inserted into the left map with
`HashMap` insert-or-replace semantics. -/
def Frequencies.merge {α : Type} [DecidableEq α] (f v : Frequencies α) :
    Frequencies α :=
  ⟨v.data.foldl (fun m kv => hmInsert m kv.1 kv.2) f.data⟩

/-! ## `MinMax<T>` (src/minmax.rs) -/

/-- Embeds `MinMax<T>`: sample count plus optional running minimum and
maximum. -/
structure MinMax (α : Type) where
  len : Nat
  min : Option α
  max : Option α
deriving DecidableEq

/-- `MinMax::new` (via `Default`): no samples, no bounds. -/
def MinMax.new {α : Type} : MinMax α := ⟨0, none, none⟩

/-- `MinMax::add`: bump the count; replace the minimum when
`sample < current` (or none is stored yet), and the maximum symmetrically. -/
def MinMax.add {α : Type} [LinearOrder α] (m : MinMax α) (sample : α) :
    MinMax α :=
  ⟨m.len + 1,
   if (m.min.map (fun v => decide (sample < v))).getD true then some sample
   else m.min,
   if (m.max.map (fun v => decide (sample > v))).getD true then some sample
   else m.max⟩

/-- Rust's derived `PartialOrd` strict `<` on `Option<T>`: `None` sorts below
every `Some`. -/
def optLt {α : Type} [LinearOrder α] : Option α → Option α → Bool
  | none, none => false
  | none, some _ => true
  | some _, none => false
  | some a, some b => decide (a < b)

/-- Rust's derived strict `>` on `Option<T>`. -/
def optGt {α : Type} [LinearOrder α] (a b : Option α) : Bool := optLt b a

/-- `MinMax::merge`: sums the counts and compares the stored `Option` bounds
directly with the derived `Option` ordering (`if v.min < self.min`,
`if v.max > self.max`). -/
def MinMax.merge {α : Type} [LinearOrder α] (m v : MinMax α) : MinMax α :=
  ⟨m.len + v.len,
   if optLt v.min m.min then v.min else m.min,
   if optGt v.max m.max then v.max else m.max⟩

/-! ## `f64` model and `OnlineStats` (src/online.rs) -/

/-- Model of an `f64` value: NaN or a finite rational. Arithmetic is exact
(no rounding); NaN propagates through every operation, and division by zero
yields NaN (in the embedded code the divisor is a sum of sample counts, which
vanishes only when the numerator does too, so the IEEE `x/0 = ±inf` case for
`x ≠ 0` never arises there). -/
inductive F where
  | nan : F
  | fin : ℚ → F
deriving DecidableEq

/-- Float addition. -/
def F.add : F → F → F
  | F.fin a, F.fin b => F.fin (a + b)
  | _, _ => F.nan

/-- Float subtraction. -/
def F.sub : F → F → F
  | F.fin a, F.fin b => F.fin (a - b)
  | _, _ => F.nan

/-- Float multiplication. -/
def F.mul : F → F → F
  | F.fin a, F.fin b => F.fin (a * b)
  | _, _ => F.nan

/-- Float division; `0/0` (and more generally division by zero) is NaN. -/
def F.div : F → F → F
  | F.fin a, F.fin b => if b = 0 then F.nan else F.fin (a / b)
  | _, _ => F.nan

/-- Embeds `OnlineStats`: population size with running mean and population
variance. -/
structure OnlineStats where
  size : Nat
  mean : F
  variance : F
deriving DecidableEq

/-- `OnlineStats::new` (via `Default`): size 0, mean 0, variance 0. -/
def OnlineStats.new : OnlineStats := ⟨0, F.fin 0, F.fin 0⟩

/-- `OnlineStats::add`: Welford-style single-sample update, in the source's
evaluation order. -/
def OnlineStats.add (s : OnlineStats) (sample : F) : OnlineStats :=
  let oldmean := s.mean
  let prevq := s.variance.mul (F.fin (s.size : ℚ))
  let size := s.size + 1
  let mean := oldmean.add ((sample.sub oldmean).div (F.fin (size : ℚ)))
  let variance :=
    (prevq.add ((sample.sub oldmean).mul (sample.sub mean))).div
      (F.fin (size : ℚ))
  ⟨size, mean, variance⟩

/-- `OnlineStats::add_null`: bumps the size only. -/
def OnlineStats.add_null (s : OnlineStats) : OnlineStats :=
  ⟨s.size + 1, s.mean, s.variance⟩

/-- `OnlineStats::merge`: the parallel moment-combination formula, exactly as
written in the source — with no guard on `s1 + s2 = 0`. -/
def OnlineStats.merge (s v : OnlineStats) : OnlineStats :=
  let s1 : F := F.fin (s.size : ℚ)
  let s2 : F := F.fin (v.size : ℚ)
  let meandiffsq := (s.mean.sub v.mean).mul (s.mean.sub v.mean)
  let mean := ((s1.mul s.mean).add (s2.mul v.mean)).div (s1.add s2)
  let var :=
    (((s1.mul s.variance).add (s2.mul v.variance)).div (s1.add s2)).add
      (((s1.mul s2).mul meandiffsq).div ((s1.add s2).mul (s1.add s2)))
  ⟨s.size + v.size, mean, var⟩

/-! ## `Sorted<T>` (src/sorted.rs) -/

/-- Embeds `Sorted<T>`: a `PriorityQueue` of samples, i.e. a bag; modelled as
the list of pushed elements (extraction via `into_sorted_vec` sorts it). -/
structure Sorted (α : Type) where
  data : List α
deriving DecidableEq

/-- `Sorted::new` (via `Default`): the empty bag. -/
def Sorted.new {α : Type} : Sorted α := ⟨[]⟩

/-- `Sorted::add`: `PriorityQueue::push`. -/
def Sorted.add {α : Type} (s : Sorted α) (v : α) : Sorted α := ⟨v :: s.data⟩

/-- `Sorted::len` (the `Collection` impl). -/
def Sorted.len {α : Type} (s : Sorted α) : Nat := s.data.length

/-- `Sorted::merge`: extends the left queue with the right queue's elements
(bag union). -/
def Sorted.merge {α : Type} (s v : Sorted α) : Sorted α := ⟨s.data ++ v.data⟩

/-- `FromIterator for Sorted`: fold `add` over the stream. -/
def Sorted.ofList {α : Type} (l : List α) : Sorted α :=
  l.foldl Sorted.add Sorted.new

/-- `PriorityQueue::into_sorted_vec`: the elements in ascending order. -/
def intoSortedVec {α : Type} [LinearOrder α] (l : List α) : List α :=
  List.insertionSort (· ≤ ·) l

/-- Loop state of `Sorted::mode`: the current best run (`mode`, `modeCount`)
and the run being scanned (`next`, `nextCount`). -/
structure ModeState (α : Type) where
  mode : Option α
  next : Option α
  modeCount : Nat
  nextCount : Nat
deriving DecidableEq

/-- One iteration of the `Sorted::mode` loop, in the source's order: bump the
matching run (or start a new one with `next_count = 0`), then compare
`next_count` against `mode_count`, promoting on strictly-greater and clearing
the mode on equality. -/
def modeStep {α : Type} [DecidableEq α] (st : ModeState α) (x : α) :
    ModeState α :=
  let st1 : ModeState α :=
    if (st.mode.map (fun y => decide (y = x))).getD false then
      ⟨st.mode, st.next, st.modeCount + 1, st.nextCount⟩
    else if (st.next.map (fun y => decide (y = x))).getD false then
      ⟨st.mode, st.next, st.modeCount, st.nextCount + 1⟩
    else
      ⟨st.mode, some x, st.modeCount, 0⟩
  if st1.nextCount > st1.modeCount then
    ⟨st1.next, none, st1.nextCount, 0⟩
  else if st1.nextCount = st1.modeCount then
    ⟨none, st1.next, 0, st1.nextCount⟩
  else
    st1

/-- `Sorted::mode`: `None` for an empty bag, else the result of walking the
sorted sequence with `modeStep`. -/
def Sorted.mode {α : Type} [LinearOrder α] (s : Sorted α) : Option α :=
  if s.len = 0 then none
  else ((intoSortedVec s.data).foldl modeStep ⟨none, none, 0, 0⟩).mode

/-- `2^64`, the modulus of `usize`/`u64` arithmetic. -/
def U64MOD : Nat := 18446744073709551616

/-- Wrapping `usize` subtraction, as release-mode Rust computes
`(data.len() / 2) - 1`. -/
def sub64 (a b : Nat) : Nat := (a + (U64MOD - b % U64MOD)) % U64MOD

/-- `Sorted::median`: sort, then take the middle element (odd length) or the
average of the two middle elements (even length). The `u64` counts are read
as exact rationals. Out-of-bounds indexing — a Rust panic — is `none`; in
particular length 0 takes the even branch and indexes at the wrapped value of
`0 - 1`. -/
def Sorted.medianResult (s : Sorted ℚ) : Option ℚ :=
  let data := intoSortedVec s.data
  if data.length % 2 = 0 then
    match data.get? (sub64 (data.length / 2) 1), data.get? (data.length / 2) with
    | some v1, some v2 => some ((v1 + v2) / 2)
    | _, _ => none
  else
    data.get? (data.length / 2)

/-! ## `Unsorted<T>` (src/unsorted.rs) -/

/-- Embeds `Unsorted<T>`: the sample buffer plus the lazy-sort flag. The
`Partial<T>` total-order adapter is taken as the identity here, over an
already linearly ordered element type: the claims about `Unsorted` concern
only the clean/dirty flag discipline, which is independent of the adapter. -/
structure Unsorted (α : Type) where
  data : List α
  sorted : Bool
deriving DecidableEq

/-- `Unsorted::new` (via `Default`): empty buffer, flag set (clean). -/
def Unsorted.new {α : Type} : Unsorted α := ⟨[], true⟩

/-- `Unsorted::add`: `dirtied()` then push. -/
def Unsorted.add {α : Type} (u : Unsorted α) (v : α) : Unsorted α :=
  ⟨u.data ++ [v], false⟩

/-- `Unsorted::len`. -/
def Unsorted.len {α : Type} (u : Unsorted α) : Nat := u.data.length

/-- `Unsorted::sort`: sorts the buffer when the flag is unset — and leaves
the flag exactly as it was (the source never assigns `self.sorted = true`). -/
def Unsorted.sortStep {α : Type} [LinearOrder α] (u : Unsorted α) : Unsorted α :=
  if u.sorted then u else ⟨List.insertionSort (· ≤ ·) u.data, u.sorted⟩

/-- `Unsorted::merge`: `dirtied()` then append the other buffer. -/
def Unsorted.merge {α : Type} (u v : Unsorted α) : Unsorted α :=
  ⟨u.data ++ v.data, false⟩

/-- `Vec::dedup`: removes consecutive repeated elements, keeping the first of
each run. -/
def dedupConsec {α : Type} [DecidableEq α] : List α → List α
  | [] => []
  | [a] => [a]
  | a :: b :: rest =>
      if a = b then dedupConsec (b :: rest) else a :: dedupConsec (b :: rest)

/-- `Unsorted::cardinality`: a query — `self.sort()`, then the length of the
deduplicated clone of the buffer. Returns the answer together with the
receiver's state after the call. -/
def Unsorted.cardinality {α : Type} [DecidableEq α] [LinearOrder α]
    (u : Unsorted α) : Nat × Unsorted α :=
  let u1 := u.sortStep
  ((dedupConsec u1.data).length, u1)

/-! ## `Commute` driver and the `Vec<T>` instance (src/lib.rs) -/

/-- `Commute::consume`: fold `merge` over a stream. -/
def consume {α : Type} (m : α → α → α) (init : α) (it : List α) : α :=
  it.foldl m init

/-- `merge_all`: `None` on an empty stream, otherwise the first accumulator
with the rest consumed into it. -/
def merge_all {α : Type} (m : α → α → α) : List α → Option α
  | [] => none
  | x :: xs => some (consume m x xs)

/-- `Commute for Vec<T>`: `assert_eq!(self.len(), other.len())` — modelled as
`none` on mismatch — then an element-wise zip of `merge`. -/
def vecMerge {α : Type} (m : α → α → α) (a b : List α) : Option (List α) :=
  if a.length = b.length then some (List.zipWith m a b) else none

/-! ## Claim theorems -/

/-- C1: the claim that `Frequencies::merge` sums the counts of keys present
in both operands fails on the code: `HashMap::extend` replaces on key
collision, so merging a table where key 1 has count 2 with one where it has
count 3 stores count 3, not 5. -/
theorem C1_frequencies_merge_replaces_shared_counts :
    let a : Frequencies ℕ := (Frequencies.new.add 1).add 1
    let b : Frequencies ℕ := ((Frequencies.new.add 1).add 1).add 1
    a.count 1 = 2 ∧ b.count 1 = 3 ∧ (a.merge b).count 1 = 3 := by
  decide

/-- C2: the identity law fails on the code for `MinMax`: merging a freshly
constructed empty tracker into one holding the single sample 5 erases the
stored minimum (the derived `Option` ordering makes `None < Some 5`), so the
observable state is not preserved. -/
theorem C2_minmax_merge_with_identity_changes_state :
    let a : MinMax ℕ := MinMax.new.add 5
    a.min = some 5 ∧ (a.merge MinMax.new).min = none ∧
      (a.merge MinMax.new).len = a.len ∧ a.merge MinMax.new ≠ a := by
  decide

/-- C3: the claim that `OnlineStats::merge` guards the zero-count case fails
on the code: merging two zero-count accumulators divides `0/0`, producing NaN
mean and variance instead of the identity. -/
theorem C3_onlinestats_merge_zero_counts_gives_nan :
    (OnlineStats.new.merge OnlineStats.new).size = 0 ∧
    (OnlineStats.new.merge OnlineStats.new).mean = F.nan ∧
    (OnlineStats.new.merge OnlineStats.new).variance = F.nan ∧
    OnlineStats.new.mean = F.fin 0 ∧ OnlineStats.new.variance = F.fin 0 := by
  refine ⟨rfl, ?_, ?_, rfl, rfl⟩ <;>
    simp [OnlineStats.merge, OnlineStats.new, F.mul, F.add, F.sub, F.div]

/-- C4: the `MinMax` invariant (min and max absent iff the count is 0,
otherwise both present) is not preserved by `merge`: merging an empty tracker
into one holding sample 5 yields count 1 with the minimum absent but the
maximum present. -/
theorem C4_minmax_invariant_broken_by_merge_with_empty :
    let m : MinMax ℕ := (MinMax.new.add 5).merge MinMax.new
    m.len = 1 ∧ m.min = none ∧ m.max = some 5 := by
  decide

/-- C5: the claim that `Sorted::mode` returns `None` whenever two or more
distinct values share the maximum frequency fails on the code: on
`{1,1,2,2,3,3}`, where all three values have frequency 2, the walk returns
`Some 3` (the tie-clearing resets the best count to 0, so the last tying run
is promoted). The singleton bag `{3}` also diverges from the claim's
unique-strict-maximum reading: the walk returns `None`. -/
theorem C5_sorted_mode_tie_not_invalidated :
    (Sorted.ofList [1, 1, 2, 2, 3, 3] : Sorted ℕ).mode = some 3 ∧
    [1, 1, 2, 2, 3, 3].count 3 = 2 ∧ [1, 1, 2, 2, 3, 3].count 1 = 2 ∧
    [1, 1, 2, 2, 3, 3].count 2 = 2 ∧
    (Sorted.ofList [3] : Sorted ℕ).mode = none := by
  decide

/-- C6: the claim that a query transitions the `Unsorted` accumulator from
Dirty to Clean fails on the code: `sort()` never assigns `self.sorted =
true`, so after an `add` the flag stays unset across any number of queries,
and a second query sorts again instead of finding the structure Clean. -/
theorem C6_unsorted_query_leaves_dirty_flag :
    let u : Unsorted ℕ := (Unsorted.new.add 2).add 1
    u.sorted = false ∧
    (u.cardinality.2).sorted = false ∧
    ((u.cardinality.2).cardinality.2).sorted = false ∧
    u.cardinality.1 = 2 ∧ (u.cardinality.2).data = [1, 2] ∧
    (Unsorted.new.merge u).sorted = false := by
  decide

/-- C7 counterexample: `merge_all` over an empty sequence of `MinMax`
accumulators — a kind with an identity element — returns `None`, not the
identity. -/
theorem C7_merge_all_empty_returns_none_counterexample :
    merge_all MinMax.merge ([] : List (MinMax ℕ)) = none ∧
    (none : Option (MinMax ℕ)) ≠ some MinMax.new := by
  decide

/-- C7 (amended): `merge_all` returns `None` on an empty sequence for every
contract, including the identity-bearing ones, and folds a non-empty
sequence left-to-right into its head. -/
theorem C7_merge_all_none_on_empty_foldl_on_nonempty {α : Type}
    (m : α → α → α) (x : α) (xs : List α) :
    merge_all m [] = none ∧ merge_all m (x :: xs) = some (xs.foldl m x) :=
  ⟨rfl, rfl⟩

/-- C9: the `Vec<T>` merge instance rejects operands of different lengths
(the `assert_eq!` panic, modelled as `none`) before combining anything, and
on equal lengths merges element-wise, preserving both lengths — no
truncation or padding. -/
theorem C9_vec_merge_asserts_equal_lengths_then_zips {α : Type}
    (m : α → α → α) (a b : List α) :
    (a.length ≠ b.length → vecMerge m a b = none) ∧
    ∀ c, vecMerge m a b = some c →
      c = List.zipWith m a b ∧ c.length = a.length ∧ c.length = b.length := by
  constructor
  · intro h
    simp [vecMerge, h]
  · intro c hc
    by_cases h : a.length = b.length
    · simp only [vecMerge, if_pos h, Option.some.injEq] at hc
      subst hc
      refine ⟨rfl, ?_, ?_⟩ <;> simp [List.length_zipWith, h]
    · simp [vecMerge, h] at hc

/-- C9 witness: the theorem applied to a concrete mismatched pair and a
concrete equal-length pair. -/
theorem C9_vec_merge_witness :
    vecMerge Nat.add [1, 2] [3] = none ∧
    ([4, 6] : List ℕ) = List.zipWith Nat.add [1, 2] [3, 4] := by
  have h1 := (C9_vec_merge_asserts_equal_lengths_then_zips Nat.add [1, 2] [3]).1
    (by decide)
  have h2 := (C9_vec_merge_asserts_equal_lengths_then_zips Nat.add
    [1, 2] [3, 4]).2 [4, 6] (by decide)
  exact ⟨h1, h2.1⟩

/-! ## Helper lemmas for the median claims -/

/-- The bag built by folding `Sorted::add` over a stream holds exactly the
stream's elements (in reverse push order). -/
theorem Sorted.ofList_data {α : Type} (l : List α) :
    (Sorted.ofList l).data = l.reverse := by
  have h : ∀ (l : List α) (s : Sorted α),
      (l.foldl Sorted.add s).data = l.reverse ++ s.data := by
    intro l
    induction l with
    | nil => intro s; simp
    | cons x xs ih =>
        intro s
        simp only [List.foldl_cons, List.reverse_cons]
        rw [ih]
        simp [Sorted.add]
  show (l.foldl Sorted.add Sorted.new).data = l.reverse
  rw [h l Sorted.new]
  simp [Sorted.new]

/-- Wrapping subtraction of 1 never exceeds the true predecessor when the
minuend is positive. -/
theorem sub64_one_le {a : Nat} (h1 : 1 ≤ a) : sub64 a 1 ≤ a - 1 := by
  unfold sub64 U64MOD
  omega

/-- Wrapping subtraction of 1 agrees with true subtraction for positive
minuends below `2^64`. -/
theorem sub64_one_eq {a : Nat} (h1 : 1 ≤ a) (h2 : a < U64MOD) :
    sub64 a 1 = a - 1 := by
  unfold sub64 U64MOD at *
  omega

/-- In-bounds `get?` returns the `getD` value. -/
theorem get?_eq_some_getD {α : Type} (l : List α) (i : Nat) (d : α)
    (h : i < l.length) : l.get? i = some (l.getD i d) := by
  induction l generalizing i with
  | nil => simp at h
  | cons x xs ih =>
      cases i with
      | zero => rfl
      | succ n =>
          have hn : n < xs.length := by simpa using h
          simpa [List.getD] using ih n hn

/-- C10: `Sorted::median` on an empty accumulator takes the even-length
branch and indexes at the wrapped value of `0/2 - 1`, out of bounds — a
panic, modelled as `none`; on any nonempty accumulator it returns a value. -/
theorem C10_sorted_median_empty_panics_nonempty_total :
    (Sorted.new : Sorted ℚ).medianResult = none ∧
    ∀ l : List ℚ, l ≠ [] → ((Sorted.ofList l).medianResult).isSome := by
  constructor
  · rfl
  · intro l hl
    have hpos : 0 < l.length := List.length_pos.mpr hl
    simp only [Sorted.medianResult]
    have hlen : (intoSortedVec (Sorted.ofList l).data).length = l.length := by
      unfold intoSortedVec
      rw [List.length_insertionSort, Sorted.ofList_data, List.length_reverse]
    set dd := intoSortedVec (Sorted.ofList l).data with hdd
    by_cases hpar : dd.length % 2 = 0
    · have h2 : 2 ≤ dd.length := by omega
      have hhalf : 1 ≤ dd.length / 2 := by omega
      have hidx1 : sub64 (dd.length / 2) 1 < dd.length := by
        have hle := sub64_one_le hhalf
        omega
      have hidx2 : dd.length / 2 < dd.length := by omega
      rw [if_pos hpar, get?_eq_some_getD dd _ 0 hidx1,
        get?_eq_some_getD dd _ 0 hidx2]
      simp
    · have hidx : dd.length / 2 < dd.length := by omega
      rw [if_neg hpar, get?_eq_some_getD dd _ 0 hidx]
      simp

/-- C10 witness: the theorem's nonempty case at the singleton list `[3]`. -/
theorem C10_median_witness :
    ([3] : List ℚ) ≠ [] ∧ ((Sorted.ofList [3] : Sorted ℚ).medianResult).isSome := by
  refine ⟨by simp, C10_sorted_median_empty_panics_nonempty_total.2 [3] (by simp)⟩

/-- C8: for a nonempty accumulator (of realizable length), `Sorted::median`
returns the middle element of the fully sorted sequence when the length is
odd, and the arithmetic mean of the two middle elements when it is even —
stated against an arbitrary sorted arrangement `d` of the samples. -/
theorem C8_sorted_median_middle_of_sorted_sequence
    (l d : List ℚ) (hne : l ≠ []) (hbound : l.length < U64MOD)
    (hperm : List.Perm d l) (hsort : List.Sorted (· ≤ ·) d) :
    (Sorted.ofList l).medianResult =
      if l.length % 2 = 0 then
        some ((d.getD (l.length / 2 - 1) 0 + d.getD (l.length / 2) 0) / 2)
      else some (d.getD (l.length / 2) 0) := by
  have hdata : (Sorted.ofList l).data = l.reverse := Sorted.ofList_data l
  have hp1 : List.Perm (intoSortedVec (Sorted.ofList l).data) d := by
    unfold intoSortedVec
    rw [hdata]
    exact (List.perm_insertionSort _ _).trans
      ((List.reverse_perm l).trans hperm.symm)
  have hs1 : List.Sorted (· ≤ ·) (intoSortedVec (Sorted.ofList l).data) := by
    unfold intoSortedVec
    exact List.sorted_insertionSort _ _
  have hd : intoSortedVec (Sorted.ofList l).data = d :=
    List.eq_of_perm_of_sorted hp1 hs1 hsort
  have hdl : d.length = l.length := hperm.length_eq
  have hpos : 0 < l.length := List.length_pos.mpr hne
  simp only [Sorted.medianResult]
  rw [hd, hdl]
  by_cases hpar : l.length % 2 = 0
  · have h2 : 2 ≤ l.length := by omega
    have hhalf : 1 ≤ l.length / 2 := by omega
    have hsub : sub64 (l.length / 2) 1 = l.length / 2 - 1 :=
      sub64_one_eq hhalf (by omega)
    have hidx1 : l.length / 2 - 1 < d.length := by omega
    have hidx2 : l.length / 2 < d.length := by omega
    rw [if_pos hpar, if_pos hpar, hsub, get?_eq_some_getD d _ 0 hidx1,
      get?_eq_some_getD d _ 0 hidx2]
  · have hidx : l.length / 2 < d.length := by omega
    rw [if_neg hpar, if_neg hpar, get?_eq_some_getD d _ 0 hidx]

/-- C8 witness: the theorem at the even-length input `[3,5,7,9]` (median 6)
and the odd-length input `[3,5,7]` (median 5). -/
theorem C8_median_witness :
    (Sorted.ofList [3, 5, 7, 9] : Sorted ℚ).medianResult = some 6 ∧
    (Sorted.ofList [3, 5, 7] : Sorted ℚ).medianResult = some 5 := by
  constructor
  · have h := C8_sorted_median_middle_of_sorted_sequence [3, 5, 7, 9]
      [3, 5, 7, 9] (by simp) (by norm_num [U64MOD]) (List.Perm.refl _)
      (by norm_num [List.Sorted])
    rw [h]
    norm_num [List.getD]
  · have h := C8_sorted_median_middle_of_sorted_sequence [3, 5, 7]
      [3, 5, 7] (by simp) (by norm_num [U64MOD]) (List.Perm.refl _)
      (by norm_num [List.Sorted])
    rw [h]
    norm_num [List.getD]
